import Mathlib

/-!
Verification of `install_bindist.py`.

The script is eight lines of Python:

  os.makedirs(sys.argv[2], exist_ok=True)
  shutil.copy(sys.argv[3], os.path.join(sys.argv[2], sys.argv[4]))
  for f in sys.argv[5:]:
      shutil.copy(os.path.join(sys.argv[1], f), os.path.join(sys.argv[2], f))

We model the filesystem as a finite map from path strings to file contents
together with a set of directory paths, give executable models of the Python
primitives the script calls (`os.path.join`, `os.path.basename`, `os.makedirs`
with `exist_ok=True`, `shutil.copy`, `sys.argv` indexing), and translate the
script line by line.  A run returns the final filesystem plus the uncaught
exception, if any; an uncaught exception makes the interpreter exit with a
non-zero status.

Model limitations (outside a shallow embedding): paths are exact strings, so
OS-level path normalisation (`a//b` versus `a/b`), symbolic links and hard
links are not modelled; permissions and disk space are not modelled, so an
existing file is always readable and a write to a non-directory path always
succeeds; file metadata (permission bits copied by `shutil.copy`) is not
modelled.
-/

namespace InstallBindist

/-- A filesystem state: `files` maps the path of each regular file to its
content (first binding wins, and the operations below keep keys unique);
`dirs` is the set of paths that are directories. -/
structure FS where
  files : List (String × String)
  dirs : List String
deriving DecidableEq

/-- Look a path up in an association list of file entries. -/
def findEntry : List (String × String) → String → Option String
  | [], _ => none
  | (k, v) :: rest, p => if k = p then some v else findEntry rest p

/-- Content of the regular file at path `p`, if one exists. -/
def readFile (fs : FS) (p : String) : Option String :=
  findEntry fs.files p

/-- `p` is a directory of `fs`. -/
def isDir (fs : FS) (p : String) : Prop :=
  p ∈ fs.dirs

instance (fs : FS) (p : String) : Decidable (isDir fs p) :=
  inferInstanceAs (Decidable (p ∈ fs.dirs))

/-- `p` exists on the filesystem, as a regular file or as a directory
(what `os.path.exists` reports). -/
def pathExists (fs : FS) (p : String) : Prop :=
  (readFile fs p).isSome = true ∨ isDir fs p

instance (fs : FS) (p : String) : Decidable (pathExists fs p) :=
  inferInstanceAs (Decidable (_ ∨ _))

/-- Overwrite the binding of `key` in an association list, or append it. -/
def setEntry : List (String × String) → String → String → List (String × String)
  | [], key, c => [(key, c)]
  | (k, v) :: rest, key, c =>
    if k = key then (key, c) :: rest else (k, v) :: setEntry rest key c

/-- Create the regular file at `p` with content `c`, overwriting any previous
content. -/
def writeFile (fs : FS) (p c : String) : FS :=
  { fs with files := setEntry fs.files p c }

/-- Record `p` as a directory; a no-op when it already is one. -/
def addDir (fs : FS) (p : String) : FS :=
  if isDir fs p then fs else { fs with dirs := p :: fs.dirs }

/-- Split a character list at every slash. -/
def splitSlash : List Char → List (List Char)
  | [] => [[]]
  | c :: rest =>
    if c = '/' then [] :: splitSlash rest
    else
      match splitSlash rest with
      | [] => [[c]]
      | g :: gs => (c :: g) :: gs

/-- The slash-separated components of a path string. -/
def pathComponents (p : String) : List String :=
  (splitSlash p.toList).map String.mk

/-- Models `os.path.join(a, b)` for POSIX paths: an absolute `b` replaces `a`;
otherwise a separator is inserted unless `a` is empty or already ends with
one. -/
def joinPath (a b : String) : String :=
  if b.toList.head? = some '/' then b
  else if a = "" ∨ a.toList.getLast? = some '/' then a ++ b
  else a ++ "/" ++ b

/-- Models `os.path.basename`: the part of the path after the last slash. -/
def basename (p : String) : String :=
  (pathComponents p).getLastD p

/-- Helper for `pathPrefixes`: successive joins of the components. -/
def chainFrom (acc : String) : List String → List String
  | [] => []
  | c :: cs =>
    let q := if acc = "" then c else acc ++ "/" ++ c
    q :: chainFrom q cs

/-- The chain of directories `os.makedirs p` ensures, outermost first: for
`a/b/c` the list `[a, a/b, a/b/c]`, for `/a/b` the list `[/a, /a/b]`. -/
def pathPrefixes (p : String) : List String :=
  match pathComponents p with
  | [] => []
  | c :: cs =>
    if c = "" then (chainFrom "" cs).map (fun q => "/" ++ q)
    else chainFrom "" (c :: cs)

/-- A Python exception the script can die of. -/
inductive PyError where
  | indexError : PyError
  | fileExists (path : String) : PyError
  | fileNotFound (path : String) : PyError
  | isADirectory (path : String) : PyError
  | sameFile (src dst : String) : PyError
deriving DecidableEq

deriving instance DecidableEq for Except

/-- The path named in the error's message, if any. -/
def PyError.path : PyError → Option String
  | .indexError => none
  | .fileExists p => some p
  | .fileNotFound p => some p
  | .isADirectory p => some p
  | .sameFile s _ => some s

/-- Walk a chain of directory paths, outermost first, creating each missing
one; an existing directory is accepted silently (`exist_ok=True`), while a
component that exists as a regular file makes the call fail.  Directories
created before a failure are kept, as they are by the real call. -/
def makedirsFrom (fs : FS) : List String → FS × Option PyError
  | [] => (fs, none)
  | q :: qs =>
    if (readFile fs q).isSome then (fs, some (.fileExists q))
    else makedirsFrom (addDir fs q) qs

/-- Models `os.makedirs(p, exist_ok=True)`: create `p` and every missing
intermediate directory. -/
def makedirs (fs : FS) (p : String) : FS × Option PyError :=
  makedirsFrom fs (pathPrefixes p)

/-- Models `shutil.copy(src, dst)`: when `dst` is an existing directory the
file is placed inside it under `basename src`; copying a path onto itself
raises `SameFileError`; a missing source raises `FileNotFoundError` and a
directory source or destination `IsADirectoryError`; otherwise the
destination file is created or overwritten with the source's content. -/
def shutilCopy (fs : FS) (src dst0 : String) : Except PyError FS :=
  let dst := if isDir fs dst0 then joinPath dst0 (basename src) else dst0
  if src = dst ∧ pathExists fs src then .error (.sameFile src dst)
  else if isDir fs src then .error (.isADirectory src)
  else
    match readFile fs src with
    | none => .error (.fileNotFound src)
    | some c =>
      if isDir fs dst then .error (.isADirectory dst)
      else .ok (writeFile fs dst c)

/-- Models `sys.argv[i]`: an out-of-range access raises `IndexError`. -/
def sysArgv (argv : List String) (i : Nat) : Except PyError String :=
  match argv[i]? with
  | some s => .ok s
  | none => .error .indexError

/-- Outcome of one process run: the final filesystem together with the
uncaught exception, if any; `none` means the interpreter exits with
status 0. -/
structure RunResult where
  fs : FS
  err : Option PyError
deriving DecidableEq

/-- The process exit status: 0 on success, non-zero when the run died of an
uncaught exception. -/
def exitStatus (r : RunResult) : Nat :=
  match r.err with
  | none => 0
  | some _ => 1

/-- The loop `for f in sys.argv[5:]: shutil.copy(os.path.join(sys.argv[1], f),
os.path.join(sys.argv[2], f))`, with `destDir` the already-read
`sys.argv[2]`.  The first failing copy ends the run at once, keeping the
filesystem as it stands. -/
def copyExtras (argv : List String) (destDir : String) : List String → FS → RunResult
  | [], fs => ⟨fs, none⟩
  | f :: rest, fs =>
    match sysArgv argv 1 with
    | .error e => ⟨fs, some e⟩
    | .ok sourceDir =>
      match shutilCopy fs (joinPath sourceDir f) (joinPath destDir f) with
      | .error e => ⟨fs, some e⟩
      | .ok fs2 => copyExtras argv destDir rest fs2

/-- Line 6 of the script followed by the loop:
`shutil.copy(sys.argv[3], os.path.join(sys.argv[2], sys.argv[4]))`, the argv
entries read in Python's evaluation order, then the extra files. -/
def copyPhase (argv : List String) (destDir : String) (fs : FS) : RunResult :=
  match sysArgv argv 3 with
  | .error e => ⟨fs, some e⟩
  | .ok mainSrc =>
    match sysArgv argv 4 with
    | .error e => ⟨fs, some e⟩
    | .ok mainDestName =>
      match shutilCopy fs mainSrc (joinPath destDir mainDestName) with
      | .error e => ⟨fs, some e⟩
      | .ok fs2 => copyExtras argv destDir (argv.drop 5) fs2

/-- The whole script: `os.makedirs(sys.argv[2], exist_ok=True)`, then the main
copy, then the extra copies.  An uncaught exception ends the run at once with
the filesystem as it stands. -/
def installBindist (argv : List String) (fs : FS) : RunResult :=
  match sysArgv argv 2 with
  | .error e => ⟨fs, some e⟩
  | .ok destDir =>
    match makedirs fs destDir with
    | (fs1, some e) => ⟨fs1, some e⟩
    | (fs1, none) => copyPhase argv destDir fs1

/-- Apply a list of writes in order. -/
def writeAll (fs : FS) : List (String × String) → FS
  | [] => fs
  | e :: es => writeAll (writeFile fs e.1 e.2) es

/-- Record a list of directories in order. -/
def addDirs (fs : FS) : List String → FS
  | [] => fs
  | q :: qs => addDirs (addDir fs q) qs

/-- The source paths an invocation reads: `sys.argv[3]` and
`source_dir/f` for each extra file `f`. -/
def sourcePaths (argv : List String) : List String :=
  (argv.drop 3).take 1 ++ (argv.drop 5).map (fun f => joinPath (argv.getD 1 "") f)

/-! ### Basic lemmas about the filesystem operations -/

theorem findEntry_setEntry (l : List (String × String)) (key c query : String) :
    findEntry (setEntry l key c) query =
      if key = query then some c else findEntry l query := by
  induction l with
  | nil => simp [setEntry, findEntry]
  | cons e rest ih =>
    obtain ⟨k, v⟩ := e
    by_cases hk : k = key
    · subst hk
      by_cases hq : k = query <;> simp [setEntry, findEntry, hq]
    · by_cases hq : k = query
      · subst hq
        have : ¬ key = k := fun h => hk h.symm
        simp [setEntry, findEntry, hk, this]
      · simp [setEntry, findEntry, hk, hq, ih]

theorem readFile_writeFile (fs : FS) (p c q : String) :
    readFile (writeFile fs p c) q = if p = q then some c else readFile fs q :=
  findEntry_setEntry fs.files p c q

theorem readFile_writeFile_ne (fs : FS) {p q : String} (c : String) (h : p ≠ q) :
    readFile (writeFile fs p c) q = readFile fs q := by
  rw [readFile_writeFile, if_neg h]

theorem dirs_writeFile (fs : FS) (p c : String) : (writeFile fs p c).dirs = fs.dirs := rfl

theorem isDir_writeFile (fs : FS) (p c q : String) :
    isDir (writeFile fs p c) q ↔ isDir fs q := Iff.rfl

theorem dirs_writeAll (fs : FS) (es : List (String × String)) :
    (writeAll fs es).dirs = fs.dirs := by
  induction es generalizing fs with
  | nil => rfl
  | cons e rest ih => simp [writeAll, ih, dirs_writeFile]

theorem isDir_writeAll (fs : FS) (es : List (String × String)) (q : String) :
    isDir (writeAll fs es) q ↔ isDir fs q := by
  unfold isDir
  rw [dirs_writeAll]

theorem writeAll_append (fs : FS) (l1 l2 : List (String × String)) :
    writeAll fs (l1 ++ l2) = writeAll (writeAll fs l1) l2 := by
  induction l1 generalizing fs with
  | nil => rfl
  | cons e rest ih => simp [writeAll, ih]

theorem readFile_writeAll_not_mem (fs : FS) (es : List (String × String)) (p : String)
    (h : p ∉ es.map Prod.fst) :
    readFile (writeAll fs es) p = readFile fs p := by
  induction es generalizing fs with
  | nil => rfl
  | cons e rest ih =>
    simp only [List.map_cons, List.mem_cons] at h
    push_neg at h
    rw [writeAll, ih _ h.2, readFile_writeFile_ne _ _ (fun hh => h.1 hh.symm)]

theorem readFile_writeAll_unique (fs : FS) (es : List (String × String)) (p v : String)
    (hmem : (p, v) ∈ es) (huniq : ∀ e ∈ es, e.1 = p → e.2 = v) :
    readFile (writeAll fs es) p = some v := by
  induction es generalizing fs with
  | nil => cases hmem
  | cons e rest ih =>
    by_cases hr : (p, v) ∈ rest
    · exact ih _ hr (fun e he => huniq e (List.mem_cons_of_mem _ he))
    · have he : e = (p, v) := by
        rcases List.mem_cons.mp hmem with h | h
        · exact h.symm
        · exact absurd h hr
      subst he
      have hk : p ∉ rest.map Prod.fst := by
        intro hp
        rcases List.mem_map.mp hp with ⟨e', he', hfst⟩
        have hsnd := huniq e' (List.mem_cons_of_mem _ he') hfst
        have : e' = (p, v) := by
          obtain ⟨a, b⟩ := e'
          simp only at hfst hsnd
          rw [hfst, hsnd]
        exact hr (this ▸ he')
      rw [writeAll, readFile_writeAll_not_mem _ _ _ hk, readFile_writeFile, if_pos rfl]

theorem readFile_addDir (fs : FS) (p q : String) :
    readFile (addDir fs p) q = readFile fs q := by
  unfold addDir
  split <;> rfl

theorem isDir_addDir (fs : FS) (p q : String) :
    isDir (addDir fs p) q ↔ q = p ∨ isDir fs q := by
  unfold addDir
  by_cases h : isDir fs p
  · rw [if_pos h]
    constructor
    · exact Or.inr
    · rintro (rfl | hq)
      · exact h
      · exact hq
  · rw [if_neg h]
    unfold isDir
    simp [List.mem_cons]

theorem addDir_self (fs : FS) (p : String) (h : isDir fs p) : addDir fs p = fs := by
  unfold addDir
  rw [if_pos h]

theorem readFile_addDirs (fs : FS) (l : List String) (q : String) :
    readFile (addDirs fs l) q = readFile fs q := by
  induction l generalizing fs with
  | nil => rfl
  | cons x rest ih => rw [addDirs, ih, readFile_addDir]

theorem isDir_addDirs (fs : FS) (l : List String) (q : String) :
    isDir (addDirs fs l) q ↔ q ∈ l ∨ isDir fs q := by
  induction l generalizing fs with
  | nil => simp [addDirs]
  | cons x rest ih =>
    rw [addDirs, ih]
    rw [isDir_addDir]
    simp [List.mem_cons]
    tauto

/-! ### Lemmas about `makedirs` -/

theorem makedirsFrom_ok (l : List String) (fs : FS)
    (h : ∀ q ∈ l, readFile fs q = none) :
    makedirsFrom fs l = (addDirs fs l, none) := by
  induction l generalizing fs with
  | nil => rfl
  | cons q qs ih =>
    have hq : readFile fs q = none := h q (List.mem_cons_self q qs)
    rw [makedirsFrom, if_neg (by simp [hq]), addDirs]
    exact ih _ (fun r hr => by rw [readFile_addDir]; exact h r (List.mem_cons_of_mem _ hr))

theorem makedirsFrom_noop (l : List String) (fs : FS)
    (h : ∀ q ∈ l, isDir fs q ∧ readFile fs q = none) :
    makedirsFrom fs l = (fs, none) := by
  induction l generalizing fs with
  | nil => rfl
  | cons q qs ih =>
    obtain ⟨hd, hf⟩ := h q (List.mem_cons_self q qs)
    rw [makedirsFrom, if_neg (by simp [hf]), addDir_self _ _ hd]
    exact ih _ (fun r hr => h r (List.mem_cons_of_mem _ hr))

theorem makedirsFrom_files (l : List String) (fs : FS) (p : String) :
    readFile (makedirsFrom fs l).1 p = readFile fs p := by
  induction l generalizing fs with
  | nil => rfl
  | cons q qs ih =>
    rw [makedirsFrom]
    split
    · rfl
    · rw [ih, readFile_addDir]

theorem makedirsFrom_none_inv (l : List String) (fs fs' : FS)
    (h : makedirsFrom fs l = (fs', none)) :
    (∀ p, readFile fs' p = readFile fs p) ∧
    (∀ q, isDir fs q → isDir fs' q) ∧
    (∀ q ∈ l, isDir fs' q ∧ readFile fs q = none) := by
  induction l generalizing fs with
  | nil =>
    simp only [makedirsFrom, Prod.mk.injEq, and_true] at h
    subst h
    exact ⟨fun p => rfl, fun q hq => hq, by simp⟩
  | cons q qs ih =>
    rw [makedirsFrom] at h
    by_cases hq : (readFile fs q).isSome = true
    · rw [if_pos hq] at h
      simp at h
    · rw [if_neg hq] at h
      obtain ⟨h1, h2, h3⟩ := ih _ h
      refine ⟨fun p => by rw [h1, readFile_addDir], fun r hr => h2 r ((isDir_addDir ..).mpr (Or.inr hr)), ?_⟩
      intro r hr
      rcases List.mem_cons.mp hr with rfl | hr'
      · exact ⟨h2 r ((isDir_addDir ..).mpr (Or.inl rfl)), by simpa using hq⟩
      · obtain ⟨hd, hf⟩ := h3 r hr'
        exact ⟨hd, by rwa [readFile_addDir] at hf⟩
/-! ### Lemmas about `shutilCopy` -/

theorem shutilCopy_ok_adj (fs : FS) (src d0 c dst : String)
    (hdst : dst = if isDir fs d0 then joinPath d0 (basename src) else d0)
    (hne : src ≠ dst) (hs : ¬ isDir fs src) (hr : readFile fs src = some c)
    (hd : ¬ isDir fs dst) :
    shutilCopy fs src d0 = .ok (writeFile fs dst c) := by
  unfold shutilCopy
  rw [← hdst, if_neg (fun h => hne h.1), if_neg hs, hr]
  exact if_neg hd

theorem shutilCopy_ok (fs : FS) (src d0 c : String)
    (hd0 : ¬ isDir fs d0) (hne : src ≠ d0) (hs : ¬ isDir fs src)
    (hr : readFile fs src = some c) :
    shutilCopy fs src d0 = .ok (writeFile fs d0 c) :=
  shutilCopy_ok_adj fs src d0 c d0 (by rw [if_neg hd0]) hne hs hr hd0

theorem shutilCopy_sameFile (fs : FS) (src d0 : String)
    (hd0 : ¬ isDir fs d0) (heq : src = d0) (hex : pathExists fs src) :
    shutilCopy fs src d0 = .error (.sameFile src d0) := by
  unfold shutilCopy
  rw [if_neg hd0, if_pos ⟨heq, hex⟩]

theorem shutilCopy_notFound (fs : FS) (src d0 : String)
    (hex : ¬ pathExists fs src) :
    shutilCopy fs src d0 = .error (.fileNotFound src) := by
  have hs : ¬ isDir fs src := fun h => hex (Or.inr h)
  have hr : readFile fs src = none := by
    cases hrq : readFile fs src with
    | none => rfl
    | some c => exact absurd (Or.inl (by rw [hrq]; rfl)) hex
  unfold shutilCopy
  rw [if_neg (fun h => hex h.2), if_neg hs, hr]

theorem shutilCopy_ok_inv {fs fs2 : FS} {src d0 : String}
    (h : shutilCopy fs src d0 = .ok fs2) :
    ∃ dst c, dst = (if isDir fs d0 then joinPath d0 (basename src) else d0) ∧
      src ≠ dst ∧ ¬ isDir fs src ∧ readFile fs src = some c ∧ ¬ isDir fs dst ∧
      fs2 = writeFile fs dst c := by
  unfold shutilCopy at h
  set dst := if isDir fs d0 then joinPath d0 (basename src) else d0 with hdst
  by_cases h1 : src = dst ∧ pathExists fs src
  · rw [if_pos h1] at h
    cases h
  · rw [if_neg h1] at h
    by_cases h2 : isDir fs src
    · rw [if_pos h2] at h
      cases h
    · rw [if_neg h2] at h
      cases hr : readFile fs src with
      | none =>
        rw [hr] at h
        cases h
      | some c =>
        rw [hr] at h
        have h' : (if isDir fs dst then Except.error (PyError.isADirectory dst)
            else Except.ok (writeFile fs dst c)) = Except.ok fs2 := h
        by_cases h3 : isDir fs dst
        · rw [if_pos h3] at h'
          cases h'
        · rw [if_neg h3] at h'
          have hne : src ≠ dst := by
            intro heq
            exact h1 ⟨heq, Or.inl (by rw [hr]; rfl)⟩
          cases h'
          exact ⟨dst, c, hdst, hne, h2, rfl, h3, rfl⟩

/-! ### Reduction lemmas for the run functions -/

theorem copyExtras_cons_okC (argv : List String) (dd sd f : String) (rest : List String)
    (s s2 : FS) (hargv : sysArgv argv 1 = .ok sd)
    (hc : shutilCopy s (joinPath sd f) (joinPath dd f) = .ok s2) :
    copyExtras argv dd (f :: rest) s = copyExtras argv dd rest s2 := by
  rw [copyExtras, hargv]
  show (match shutilCopy s (joinPath sd f) (joinPath dd f) with
    | .error e => (⟨s, some e⟩ : RunResult)
    | .ok fs2 => copyExtras argv dd rest fs2) = _
  rw [hc]

theorem copyExtras_cons_errC (argv : List String) (dd sd f : String) (rest : List String)
    (s : FS) (e : PyError) (hargv : sysArgv argv 1 = .ok sd)
    (hc : shutilCopy s (joinPath sd f) (joinPath dd f) = .error e) :
    copyExtras argv dd (f :: rest) s = ⟨s, some e⟩ := by
  rw [copyExtras, hargv]
  show (match shutilCopy s (joinPath sd f) (joinPath dd f) with
    | .error e => (⟨s, some e⟩ : RunResult)
    | .ok fs2 => copyExtras argv dd rest fs2) = _
  rw [hc]

theorem copyExtras_cons_errA (argv : List String) (dd f : String) (rest : List String)
    (s : FS) (e : PyError) (hargv : sysArgv argv 1 = .error e) :
    copyExtras argv dd (f :: rest) s = ⟨s, some e⟩ := by
  rw [copyExtras, hargv]

theorem copyPhase_okC (argv : List String) (dd ms mdn : String) (fs fs2 : FS)
    (h3 : sysArgv argv 3 = .ok ms) (h4 : sysArgv argv 4 = .ok mdn)
    (hc : shutilCopy fs ms (joinPath dd mdn) = .ok fs2) :
    copyPhase argv dd fs = copyExtras argv dd (argv.drop 5) fs2 := by
  rw [copyPhase, h3, h4]
  show (match shutilCopy fs ms (joinPath dd mdn) with
    | .error e => (⟨fs, some e⟩ : RunResult)
    | .ok fs2 => copyExtras argv dd (argv.drop 5) fs2) = _
  rw [hc]

theorem copyPhase_errC (argv : List String) (dd ms mdn : String) (fs : FS) (e : PyError)
    (h3 : sysArgv argv 3 = .ok ms) (h4 : sysArgv argv 4 = .ok mdn)
    (hc : shutilCopy fs ms (joinPath dd mdn) = .error e) :
    copyPhase argv dd fs = ⟨fs, some e⟩ := by
  rw [copyPhase, h3, h4]
  show (match shutilCopy fs ms (joinPath dd mdn) with
    | .error e => (⟨fs, some e⟩ : RunResult)
    | .ok fs2 => copyExtras argv dd (argv.drop 5) fs2) = _
  rw [hc]

theorem copyPhase_err3 (argv : List String) (dd : String) (fs : FS) (e : PyError)
    (h3 : sysArgv argv 3 = .error e) :
    copyPhase argv dd fs = ⟨fs, some e⟩ := by
  rw [copyPhase, h3]

theorem copyPhase_err4 (argv : List String) (dd ms : String) (fs : FS) (e : PyError)
    (h3 : sysArgv argv 3 = .ok ms) (h4 : sysArgv argv 4 = .error e) :
    copyPhase argv dd fs = ⟨fs, some e⟩ := by
  rw [copyPhase, h3, h4]

theorem installBindist_step (argv : List String) (fs fs1 : FS) (dd : String)
    (h2 : sysArgv argv 2 = .ok dd) (hmk : makedirs fs dd = (fs1, none)) :
    installBindist argv fs = copyPhase argv dd fs1 := by
  rw [installBindist, h2]
  show (match makedirs fs dd with
    | (fs1, some e) => (⟨fs1, some e⟩ : RunResult)
    | (fs1, none) => copyPhase argv dd fs1) = _
  rw [hmk]

theorem installBindist_errA (argv : List String) (fs : FS) (e : PyError)
    (h2 : sysArgv argv 2 = .error e) :
    installBindist argv fs = ⟨fs, some e⟩ := by
  rw [installBindist, h2]

theorem installBindist_errM (argv : List String) (fs fs1 : FS) (dd : String) (e : PyError)
    (h2 : sysArgv argv 2 = .ok dd) (hmk : makedirs fs dd = (fs1, some e)) :
    installBindist argv fs = ⟨fs1, some e⟩ := by
  rw [installBindist, h2]
  show (match makedirs fs dd with
    | (fs1, some e) => (⟨fs1, some e⟩ : RunResult)
    | (fs1, none) => copyPhase argv dd fs1) = _
  rw [hmk]

/-! ### Lemmas about `copyExtras` -/

theorem copyExtras_ok (argv : List String) (dd sd : String)
    (hargv : sysArgv argv 1 = .ok sd) :
    ∀ (l : List String) (s : FS),
    (∀ f ∈ l, (readFile s (joinPath sd f)).isSome = true) →
    (∀ f ∈ l, ¬ isDir s (joinPath sd f)) →
    (∀ f ∈ l, ¬ isDir s (joinPath dd f)) →
    (∀ f ∈ l, ∀ g ∈ l, joinPath sd f ≠ joinPath dd g) →
    copyExtras argv dd l s =
      ⟨writeAll s (l.map fun f => (joinPath dd f, (readFile s (joinPath sd f)).getD "")), none⟩ := by
  intro l
  induction l with
  | nil => intro s _ _ _ _; rfl
  | cons f rest ih =>
    intro s h1 h2 h3 h4
    have hf := h1 f (List.mem_cons_self f rest)
    obtain ⟨c, hc⟩ := Option.isSome_iff_exists.mp hf
    have hcopy : shutilCopy s (joinPath sd f) (joinPath dd f) =
        .ok (writeFile s (joinPath dd f) c) :=
      shutilCopy_ok s _ _ c (h3 f (List.mem_cons_self f rest))
        (h4 f (List.mem_cons_self f rest) f (List.mem_cons_self f rest))
        (h2 f (List.mem_cons_self f rest)) hc
    have hread : ∀ g ∈ rest,
        readFile (writeFile s (joinPath dd f) c) (joinPath sd g) = readFile s (joinPath sd g) := by
      intro g hg
      exact readFile_writeFile_ne _ _
        (fun hh => h4 g (List.mem_cons_of_mem _ hg) f (List.mem_cons_self f rest) hh.symm)
    have htail := ih (writeFile s (joinPath dd f) c)
      (fun g hg => by rw [hread g hg]; exact h1 g (List.mem_cons_of_mem _ hg))
      (fun g hg => by rw [isDir_writeFile]; exact h2 g (List.mem_cons_of_mem _ hg))
      (fun g hg => by rw [isDir_writeFile]; exact h3 g (List.mem_cons_of_mem _ hg))
      (fun g hg g' hg' => h4 g (List.mem_cons_of_mem _ hg) g' (List.mem_cons_of_mem _ hg'))
    rw [copyExtras_cons_okC argv dd sd f rest s _ hargv hcopy, htail]
    have hmap : (rest.map fun g =>
          (joinPath dd g, (readFile (writeFile s (joinPath dd f) c) (joinPath sd g)).getD "")) =
        rest.map fun g => (joinPath dd g, (readFile s (joinPath sd g)).getD "") := by
      apply List.map_congr_left
      intro g hg
      rw [hread g hg]
    rw [hmap]
    simp only [List.map_cons, writeAll, hc]
    rfl

theorem copyExtras_none_inv (argv : List String) (dd : String) :
    ∀ (l : List String) (s w : FS), copyExtras argv dd l s = ⟨w, none⟩ →
    w.dirs = s.dirs ∧ ∀ p, isDir s p → readFile w p = readFile s p := by
  intro l
  induction l with
  | nil =>
    intro s w h
    rw [copyExtras] at h
    cases h
    exact ⟨rfl, fun p _ => rfl⟩
  | cons f rest ih =>
    intro s w h
    cases ha : sysArgv argv 1 with
    | error e => rw [copyExtras_cons_errA argv dd f rest s e ha] at h; simp at h
    | ok sd =>
      cases hc : shutilCopy s (joinPath sd f) (joinPath dd f) with
      | error e => rw [copyExtras_cons_errC argv dd sd f rest s e ha hc] at h; simp at h
      | ok s2 =>
        rw [copyExtras_cons_okC argv dd sd f rest s s2 ha hc] at h
        obtain ⟨dst, c, hdst, hne, hs, hr, hd, rfl⟩ := shutilCopy_ok_inv hc
        obtain ⟨ih1, ih2⟩ := ih _ _ h
        refine ⟨by rw [ih1, dirs_writeFile], ?_⟩
        intro p hp
        have hpne : dst ≠ p := fun hh => hd (hh ▸ hp)
        rw [ih2 p (by rwa [isDir_writeFile]), readFile_writeFile_ne _ _ hpne]

theorem copyExtras_append_ok (argv : List String) (dd : String) :
    ∀ (l1 l2 : List String) (s s' : FS), copyExtras argv dd l1 s = ⟨s', none⟩ →
    copyExtras argv dd (l1 ++ l2) s = copyExtras argv dd l2 s' := by
  intro l1
  induction l1 with
  | nil =>
    intro l2 s s' h
    rw [copyExtras] at h
    cases h
    rfl
  | cons f rest ih =>
    intro l2 s s' h
    rw [List.cons_append]
    cases ha : sysArgv argv 1 with
    | error e => rw [copyExtras_cons_errA argv dd f rest s e ha] at h; simp at h
    | ok sd =>
      cases hc : shutilCopy s (joinPath sd f) (joinPath dd f) with
      | error e => rw [copyExtras_cons_errC argv dd sd f rest s e ha hc] at h; simp at h
      | ok s2 =>
        rw [copyExtras_cons_okC argv dd sd f rest s s2 ha hc] at h
        rw [copyExtras_cons_okC argv dd sd f (rest ++ l2) s s2 ha hc]
        exact ih l2 s2 s' h

/-! ### The successful run, characterised -/

theorem installBindist_ok (a0 sd dd ms mdn : String) (extras : List String) (fs : FS) (cm : String)
    (hpre : ∀ q ∈ pathPrefixes dd, readFile fs q = none)
    (hms : readFile fs ms = some cm)
    (hms_nd : ¬ isDir fs ms)
    (hdm_nd : ¬ isDir fs (joinPath dd mdn))
    (hdm_np : joinPath dd mdn ∉ pathPrefixes dd)
    (hms_ne : ms ≠ joinPath dd mdn)
    (hsrcR : ∀ f ∈ extras, (readFile fs (joinPath sd f)).isSome = true)
    (hsrc_nd : ∀ f ∈ extras, ¬ isDir fs (joinPath sd f))
    (hdst_nd : ∀ f ∈ extras, ¬ isDir fs (joinPath dd f))
    (hdst_np : ∀ f ∈ extras, joinPath dd f ∉ pathPrefixes dd)
    (hsm : ∀ f ∈ extras, joinPath sd f ≠ joinPath dd mdn)
    (hsd2 : ∀ f ∈ extras, ∀ g ∈ extras, joinPath sd f ≠ joinPath dd g) :
    installBindist (a0 :: sd :: dd :: ms :: mdn :: extras) fs =
      ⟨writeAll (addDirs fs (pathPrefixes dd))
         ((joinPath dd mdn, cm) ::
           extras.map fun f => (joinPath dd f, (readFile fs (joinPath sd f)).getD "")), none⟩ := by
  have hargv2 : sysArgv (a0 :: sd :: dd :: ms :: mdn :: extras) 2 = .ok dd := rfl
  have hargv3 : sysArgv (a0 :: sd :: dd :: ms :: mdn :: extras) 3 = .ok ms := rfl
  have hargv4 : sysArgv (a0 :: sd :: dd :: ms :: mdn :: extras) 4 = .ok mdn := by
    simp [sysArgv]
  have hargv1 : sysArgv (a0 :: sd :: dd :: ms :: mdn :: extras) 1 = .ok sd := rfl
  have hdrop : (a0 :: sd :: dd :: ms :: mdn :: extras).drop 5 = extras := rfl
  have hmk : makedirs fs dd = (addDirs fs (pathPrefixes dd), none) :=
    makedirsFrom_ok _ _ hpre
  set fs1 := addDirs fs (pathPrefixes dd) with hfs1
  have hrf1 : ∀ p, readFile fs1 p = readFile fs p := fun p => readFile_addDirs ..
  have hisd1 : ∀ q, isDir fs1 q ↔ q ∈ pathPrefixes dd ∨ isDir fs q := fun q => isDir_addDirs ..
  have hnotp : ∀ p, readFile fs p ≠ none → p ∉ pathPrefixes dd := by
    intro p hp hmem
    exact hp (hpre p hmem)
  have hms1 : ¬ isDir fs1 ms := by
    rw [hisd1]
    rintro (hmem | hd)
    · exact hnotp ms (by rw [hms]; simp) hmem
    · exact hms_nd hd
  have hdm1 : ¬ isDir fs1 (joinPath dd mdn) := by
    rw [hisd1]
    rintro (hmem | hd)
    · exact hdm_np hmem
    · exact hdm_nd hd
  have hmain : shutilCopy fs1 ms (joinPath dd mdn) =
      .ok (writeFile fs1 (joinPath dd mdn) cm) :=
    shutilCopy_ok fs1 ms _ cm hdm1 hms_ne hms1 (by rw [hrf1, hms])
  set fs2 := writeFile fs1 (joinPath dd mdn) cm with hfs2
  have hrf2 : ∀ f ∈ extras, readFile fs2 (joinPath sd f) = readFile fs (joinPath sd f) := by
    intro f hf
    rw [hfs2, readFile_writeFile_ne _ _ (fun hh => hsm f hf hh.symm), hrf1]
  have hextras := copyExtras_ok (a0 :: sd :: dd :: ms :: mdn :: extras) dd sd hargv1 extras fs2
    (fun f hf => by rw [hrf2 f hf]; exact hsrcR f hf)
    (fun f hf => by
      rw [hfs2, isDir_writeFile, hisd1]
      rintro (hmem | hd)
      · exact hnotp (joinPath sd f)
          (by rw [(Option.isSome_iff_exists.mp (hsrcR f hf)).choose_spec]; simp) hmem
      · exact hsrc_nd f hf hd)
    (fun f hf => by
      rw [hfs2, isDir_writeFile, hisd1]
      rintro (hmem | hd)
      · exact hdst_np f hf hmem
      · exact hdst_nd f hf hd)
    (fun f hf g hg => hsd2 f hf g hg)
  have hmapc : (extras.map fun f => (joinPath dd f, (readFile fs2 (joinPath sd f)).getD "")) =
      extras.map fun f => (joinPath dd f, (readFile fs (joinPath sd f)).getD "") := by
    apply List.map_congr_left
    intro f hf
    rw [hrf2 f hf]
  rw [hmapc] at hextras
  rw [installBindist_step _ _ _ _ hargv2 hmk,
    copyPhase_okC _ _ _ _ _ _ hargv3 hargv4 hmain, hdrop, hextras]
  rfl

/-! ### A simulation argument for idempotence

`SimInv fs0 s1 u t` relates a state `u` reached during a first run started in
`fs0` to the corresponding state `t` of a second run started in `s1` (the
first run's final state): both have the same directories, and every path
either holds the same content in both or is still untouched by both runs. -/

def SimInv (fs0 s1 u t : FS) : Prop :=
  u.dirs = t.dirs ∧ ∀ p, readFile t p = readFile u p ∨
    (readFile u p = readFile fs0 p ∧ readFile t p = readFile s1 p)

theorem isDir_iff_of_dirs_eq {u t : FS} (h : u.dirs = t.dirs) (p : String) :
    isDir u p ↔ isDir t p := by
  unfold isDir
  rw [h]

theorem copy_sim {fs0 s1 u t u2 : FS} {src d0 : String}
    (hinv : SimInv fs0 s1 u t)
    (hsrc : readFile t src = readFile u src)
    (h : shutilCopy u src d0 = .ok u2) :
    ∃ t2, shutilCopy t src d0 = .ok t2 ∧ SimInv fs0 s1 u2 t2 := by
  obtain ⟨dst, c, hdst, hne, hnds, hrc, hndd, rfl⟩ := shutilCopy_ok_inv h
  have hdirs := hinv.1
  have hdst' : dst = if isDir t d0 then joinPath d0 (basename src) else d0 := by
    rw [hdst]
    by_cases hd0 : isDir u d0
    · rw [if_pos hd0, if_pos ((isDir_iff_of_dirs_eq hdirs d0).mp hd0)]
    · rw [if_neg hd0, if_neg (fun hh => hd0 ((isDir_iff_of_dirs_eq hdirs d0).mpr hh))]
  refine ⟨writeFile t dst c, ?_, ?_, ?_⟩
  · exact shutilCopy_ok_adj t src d0 c dst hdst' hne
      (fun hh => hnds ((isDir_iff_of_dirs_eq hdirs src).mpr hh))
      (by rw [hsrc, hrc])
      (fun hh => hndd ((isDir_iff_of_dirs_eq hdirs dst).mpr hh))
  · rw [dirs_writeFile, dirs_writeFile]
    exact hdirs
  · intro p
    by_cases hp : dst = p
    · subst hp
      left
      rw [readFile_writeFile, readFile_writeFile, if_pos rfl, if_pos rfl]
    · rw [readFile_writeFile_ne _ _ hp, readFile_writeFile_ne _ _ hp]
      exact hinv.2 p

theorem copyExtras_sim (argv : List String) (dd sd : String) (fs0 s1 : FS)
    (hargv : sysArgv argv 1 = .ok sd) :
    ∀ (l : List String) (u t w : FS),
    copyExtras argv dd l u = ⟨w, none⟩ →
    SimInv fs0 s1 u t →
    (∀ f ∈ l, readFile s1 (joinPath sd f) = readFile fs0 (joinPath sd f)) →
    ∃ w2, copyExtras argv dd l t = ⟨w2, none⟩ ∧ SimInv fs0 s1 w w2 := by
  intro l
  induction l with
  | nil =>
    intro u t w h hinv _
    rw [copyExtras] at h
    cases h
    exact ⟨t, rfl, hinv⟩
  | cons f rest ih =>
    intro u t w h hinv hstab
    cases hc : shutilCopy u (joinPath sd f) (joinPath dd f) with
    | error e =>
      rw [copyExtras_cons_errC argv dd sd f rest u e hargv hc] at h
      simp at h
    | ok u2 =>
      rw [copyExtras_cons_okC argv dd sd f rest u u2 hargv hc] at h
      have hsrc : readFile t (joinPath sd f) = readFile u (joinPath sd f) := by
        rcases hinv.2 (joinPath sd f) with heq | ⟨hu, ht⟩
        · exact heq
        · rw [ht, hu, hstab f (List.mem_cons_self f rest)]
      obtain ⟨t2, hct, hinv2⟩ := copy_sim hinv hsrc hc
      obtain ⟨w2, hw2, hinvw⟩ := ih u2 t2 w h hinv2
        (fun g hg => hstab g (List.mem_cons_of_mem _ hg))
      exact ⟨w2, by rw [copyExtras_cons_okC argv dd sd f rest t t2 hargv hct]; exact hw2, hinvw⟩

theorem readFile_writeAll_last (fs : FS) (es1 es2 : List (String × String)) (p v : String)
    (h : p ∉ es2.map Prod.fst) :
    readFile (writeAll fs (es1 ++ (p, v) :: es2)) p = some v := by
  rw [writeAll_append, writeAll, readFile_writeAll_not_mem _ _ _ h,
    readFile_writeFile, if_pos rfl]

theorem sysArgv_ok_iff (argv : List String) (i : Nat) (s : String) :
    sysArgv argv i = .ok s ↔ argv[i]? = some s := by
  unfold sysArgv
  cases h : argv[i]? <;> simp

/-! ## The claims -/

/-- C1, counterexample.  The claim says: whenever `main_src_path` exists and is
readable, every `source_dir/f` exists and is readable, and `dest_dir` is
writable, the program exits with status 0 and installs the files.  Here
`source_dir = dest_dir = "d"`, the main file `"m"` and the extra source
`"d/f"` exist, and `"d"` is an existing (hence writable) directory — yet the
run dies with `SameFileError`, because the extra file's source and destination
are the same path, so the exit status is non-zero. -/
theorem claim_C1_counterexample :
    (readFile (FS.mk [("m", "M"), ("d/f", "F")] ["d"]) "m").isSome = true ∧
    (∀ f ∈ ["f"], (readFile (FS.mk [("m", "M"), ("d/f", "F")] ["d"]) (joinPath "d" f)).isSome = true) ∧
    isDir (FS.mk [("m", "M"), ("d/f", "F")] ["d"]) "d" ∧
    (installBindist ["prog", "d", "d", "m", "out", "f"]
      (FS.mk [("m", "M"), ("d/f", "F")] ["d"])).err =
      some (.sameFile "d/f" "d/f") := by
  refine ⟨by decide, by decide, by decide, by decide⟩

/-- C1, amended.  If in addition no source path coincides with a destination
path, no two command-line names denote the same destination path, and no
source or destination path is an existing directory (or a directory chain
component of `dest_dir`), then the run exits with status 0, the file
`dest_dir/main_dest_name` holds the content of `main_src_path`, and each
`dest_dir/f` holds the content of `source_dir/f`. -/
theorem claim_C1 (a0 sd dd ms mdn : String) (extras : List String) (fs : FS) (cm : String)
    (hpre : ∀ q ∈ pathPrefixes dd, readFile fs q = none)
    (hms : readFile fs ms = some cm)
    (hms_nd : ¬ isDir fs ms)
    (hdm_nd : ¬ isDir fs (joinPath dd mdn))
    (hdm_np : joinPath dd mdn ∉ pathPrefixes dd)
    (hms_ne : ms ≠ joinPath dd mdn)
    (hsrcR : ∀ f ∈ extras, (readFile fs (joinPath sd f)).isSome = true)
    (hsrc_nd : ∀ f ∈ extras, ¬ isDir fs (joinPath sd f))
    (hdst_nd : ∀ f ∈ extras, ¬ isDir fs (joinPath dd f))
    (hdst_np : ∀ f ∈ extras, joinPath dd f ∉ pathPrefixes dd)
    (hsm : ∀ f ∈ extras, joinPath sd f ≠ joinPath dd mdn)
    (hsd2 : ∀ f ∈ extras, ∀ g ∈ extras, joinPath sd f ≠ joinPath dd g)
    (hinj : ∀ f ∈ extras, ∀ g ∈ extras, joinPath dd f = joinPath dd g → f = g)
    (hmainE : ∀ f ∈ extras, joinPath dd f ≠ joinPath dd mdn) :
    (installBindist (a0 :: sd :: dd :: ms :: mdn :: extras) fs).err = none ∧
    readFile (installBindist (a0 :: sd :: dd :: ms :: mdn :: extras) fs).fs (joinPath dd mdn) =
      readFile fs ms ∧
    ∀ f ∈ extras,
      readFile (installBindist (a0 :: sd :: dd :: ms :: mdn :: extras) fs).fs (joinPath dd f) =
        readFile fs (joinPath sd f) := by
  rw [installBindist_ok a0 sd dd ms mdn extras fs cm hpre hms hms_nd hdm_nd hdm_np hms_ne
    hsrcR hsrc_nd hdst_nd hdst_np hsm hsd2]
  refine ⟨rfl, ?_, ?_⟩
  · rw [hms]
    apply readFile_writeAll_unique _ _ _ _ (List.mem_cons_self _ _)
    intro e he hfst
    rcases List.mem_cons.mp he with rfl | hmem
    · rfl
    · rcases List.mem_map.mp hmem with ⟨g, hg, rfl⟩
      exact absurd hfst (hmainE g hg)
  · intro f hf
    obtain ⟨c, hc⟩ := Option.isSome_iff_exists.mp (hsrcR f hf)
    rw [hc]
    apply readFile_writeAll_unique
    · exact List.mem_cons_of_mem _ (List.mem_map.mpr ⟨f, hf, by rw [hc]; rfl⟩)
    · intro e he hfst
      rcases List.mem_cons.mp he with rfl | hmem
      · exact absurd hfst.symm (hmainE f hf)
      · rcases List.mem_map.mp hmem with ⟨g, hg, rfl⟩
        have hg' : g = f := hinj g hg f hf hfst
        subst hg'
        rw [hc]
        rfl

/-- C1, witness for the amended theorem. -/
theorem claim_C1_witness :
    (installBindist ["p", "s", "d", "m", "n", "f"] (FS.mk [("m", "M"), ("s/f", "F")] [])).err =
      none ∧
    readFile (installBindist ["p", "s", "d", "m", "n", "f"]
        (FS.mk [("m", "M"), ("s/f", "F")] [])).fs (joinPath "d" "n") =
      readFile (FS.mk [("m", "M"), ("s/f", "F")] []) "m" ∧
    ∀ f ∈ ["f"],
      readFile (installBindist ["p", "s", "d", "m", "n", "f"]
          (FS.mk [("m", "M"), ("s/f", "F")] [])).fs (joinPath "d" f) =
        readFile (FS.mk [("m", "M"), ("s/f", "F")] []) (joinPath "s" f) :=
  claim_C1 "p" "s" "d" "m" "n" ["f"] (FS.mk [("m", "M"), ("s/f", "F")] []) "M"
    (by decide) (by decide) (by decide) (by decide) (by decide) (by decide) (by decide)
    (by decide) (by decide) (by decide) (by decide) (by decide) (by decide) (by decide)

/-- C3, counterexample.  The claim says the main artifact is copied to
`dest_dir/main_dest_name`, overwriting any existing file there.  Here the file
`d/n` exists and is itself given as `main_src_path`: instead of a successful
overwrite, the copy raises `SameFileError`, the run exits non-zero and the
file keeps its old content. -/
theorem claim_C3_counterexample :
    readFile (FS.mk [("d/n", "OLD")] ["d"]) "d/n" = some "OLD" ∧
    (installBindist ["p", "s", "d", "d/n", "n"] (FS.mk [("d/n", "OLD")] ["d"])).err =
      some (.sameFile "d/n" "d/n") ∧
    readFile (installBindist ["p", "s", "d", "d/n", "n"]
        (FS.mk [("d/n", "OLD")] ["d"])).fs "d/n" = some "OLD" := by
  refine ⟨by decide, by decide, by decide⟩

/-- C3, amended.  Provided the copies are free of aliasing (no source path is
a destination path, destinations are not existing directories), the extra
files are copied in command-line order after the main artifact: the content
finally found at an extra file's destination is the source content of the
LAST command-line name mapping to that destination, each copy overwriting
whatever an earlier step or the initial state had put there. -/
theorem claim_C3 (a0 sd dd ms mdn : String) (l1 l2 : List String) (f : String) (fs : FS)
    (cm : String)
    (hpre : ∀ q ∈ pathPrefixes dd, readFile fs q = none)
    (hms : readFile fs ms = some cm)
    (hms_nd : ¬ isDir fs ms)
    (hdm_nd : ¬ isDir fs (joinPath dd mdn))
    (hdm_np : joinPath dd mdn ∉ pathPrefixes dd)
    (hms_ne : ms ≠ joinPath dd mdn)
    (hsrcR : ∀ g ∈ l1 ++ f :: l2, (readFile fs (joinPath sd g)).isSome = true)
    (hsrc_nd : ∀ g ∈ l1 ++ f :: l2, ¬ isDir fs (joinPath sd g))
    (hdst_nd : ∀ g ∈ l1 ++ f :: l2, ¬ isDir fs (joinPath dd g))
    (hdst_np : ∀ g ∈ l1 ++ f :: l2, joinPath dd g ∉ pathPrefixes dd)
    (hsm : ∀ g ∈ l1 ++ f :: l2, joinPath sd g ≠ joinPath dd mdn)
    (hsd2 : ∀ g ∈ l1 ++ f :: l2, ∀ g' ∈ l1 ++ f :: l2, joinPath sd g ≠ joinPath dd g')
    (hlast : ∀ g ∈ l2, joinPath dd g ≠ joinPath dd f) :
    (installBindist (a0 :: sd :: dd :: ms :: mdn :: (l1 ++ f :: l2)) fs).err = none ∧
    readFile (installBindist (a0 :: sd :: dd :: ms :: mdn :: (l1 ++ f :: l2)) fs).fs
        (joinPath dd f) =
      readFile fs (joinPath sd f) := by
  rw [installBindist_ok a0 sd dd ms mdn (l1 ++ f :: l2) fs cm hpre hms hms_nd hdm_nd hdm_np
    hms_ne hsrcR hsrc_nd hdst_nd hdst_np hsm hsd2]
  refine ⟨rfl, ?_⟩
  have hfmem : f ∈ l1 ++ f :: l2 := List.mem_append_right _ (List.mem_cons_self f l2)
  obtain ⟨c, hc⟩ := Option.isSome_iff_exists.mp (hsrcR f hfmem)
  rw [hc]
  have hsplit : ((joinPath dd mdn, cm) ::
      (l1 ++ f :: l2).map fun g => (joinPath dd g, (readFile fs (joinPath sd g)).getD "")) =
      ((joinPath dd mdn, cm) ::
        l1.map fun g => (joinPath dd g, (readFile fs (joinPath sd g)).getD "")) ++
        ((joinPath dd f, (readFile fs (joinPath sd f)).getD "") ::
          l2.map fun g => (joinPath dd g, (readFile fs (joinPath sd g)).getD "")) := by
    rw [List.map_append, List.map_cons, List.cons_append]
  rw [hsplit]
  have hnm : joinPath dd f ∉
      (l2.map fun g => (joinPath dd g, (readFile fs (joinPath sd g)).getD "")).map Prod.fst := by
    intro hmem
    rw [List.map_map] at hmem
    rcases List.mem_map.mp hmem with ⟨g, hg, hfst⟩
    exact hlast g hg hfst
  rw [readFile_writeAll_last _ _ _ _ _ hnm, hc]
  rfl

/-- C3, witness for the amended theorem: with extras `["f", "g", "f"]` the
final content of `d/f` is the source content of the LAST occurrence of `"f"`,
and the run succeeds. -/
theorem claim_C3_witness :
    (installBindist ["p", "s", "d", "m", "n", "f", "g", "f"]
      (FS.mk [("m", "M"), ("s/f", "F"), ("s/g", "G"), ("d/f", "OLD")] [])).err = none ∧
    readFile (installBindist ["p", "s", "d", "m", "n", "f", "g", "f"]
        (FS.mk [("m", "M"), ("s/f", "F"), ("s/g", "G"), ("d/f", "OLD")] [])).fs
        (joinPath "d" "f") =
      readFile (FS.mk [("m", "M"), ("s/f", "F"), ("s/g", "G"), ("d/f", "OLD")] [])
        (joinPath "s" "f") :=
  claim_C3 "p" "s" "d" "m" "n" ["f", "g"] [] "f"
    (FS.mk [("m", "M"), ("s/f", "F"), ("s/g", "G"), ("d/f", "OLD")] []) "M"
    (by decide) (by decide) (by decide) (by decide) (by decide) (by decide) (by decide)
    (by decide) (by decide) (by decide) (by decide) (by decide) (by decide)

/-- C5, counterexample.  The claim says a pre-existing file in `dest_dir`
whose name is neither `main_dest_name` nor one of the extra-file names is left
unchanged.  Take `dest_dir = "/e"` pre-existing and the absolute
`main_dest_name = "/e/y"`: `os.path.join("/e", "/e/y")` is `"/e/y"`, i.e. the
pre-existing file named `"y"` inside `dest_dir` — a name different from
`main_dest_name` itself and not among the (empty) extras — and the run
overwrites it while exiting 0. -/
theorem claim_C5_counterexample :
    isDir (FS.mk [("m", "M"), ("/e/y", "OLD")] ["/e"]) "/e" ∧
    readFile (FS.mk [("m", "M"), ("/e/y", "OLD")] ["/e"]) "/e/y" = some "OLD" ∧
    joinPath "/e" "y" = "/e/y" ∧
    ("y" : String) ≠ "/e/y" ∧
    (installBindist ["p", "s", "/e", "m", "/e/y"]
      (FS.mk [("m", "M"), ("/e/y", "OLD")] ["/e"])).err = none ∧
    readFile (installBindist ["p", "s", "/e", "m", "/e/y"]
        (FS.mk [("m", "M"), ("/e/y", "OLD")] ["/e"])).fs "/e/y" = some "M" := by
  refine ⟨by decide, by decide, by decide, by decide, by decide, by decide⟩

/-- C5, amended.  On a pre-existing `dest_dir` the program does not fail
merely because the directory exists, and — provided no destination path is an
existing directory and the copies are aliasing-free — every pre-existing file
whose path is not one of the destination paths `dest_dir/main_dest_name`,
`dest_dir/f` is left unchanged. -/
theorem claim_C5 (a0 sd dd ms mdn : String) (extras : List String) (fs : FS) (cm : String)
    (_hexist : ∀ q ∈ pathPrefixes dd, isDir fs q)
    (hpre : ∀ q ∈ pathPrefixes dd, readFile fs q = none)
    (hms : readFile fs ms = some cm)
    (hms_nd : ¬ isDir fs ms)
    (hdm_nd : ¬ isDir fs (joinPath dd mdn))
    (hdm_np : joinPath dd mdn ∉ pathPrefixes dd)
    (hms_ne : ms ≠ joinPath dd mdn)
    (hsrcR : ∀ f ∈ extras, (readFile fs (joinPath sd f)).isSome = true)
    (hsrc_nd : ∀ f ∈ extras, ¬ isDir fs (joinPath sd f))
    (hdst_nd : ∀ f ∈ extras, ¬ isDir fs (joinPath dd f))
    (hdst_np : ∀ f ∈ extras, joinPath dd f ∉ pathPrefixes dd)
    (hsm : ∀ f ∈ extras, joinPath sd f ≠ joinPath dd mdn)
    (hsd2 : ∀ f ∈ extras, ∀ g ∈ extras, joinPath sd f ≠ joinPath dd g) :
    (installBindist (a0 :: sd :: dd :: ms :: mdn :: extras) fs).err = none ∧
    ∀ p, p ≠ joinPath dd mdn → (∀ f ∈ extras, p ≠ joinPath dd f) →
      readFile (installBindist (a0 :: sd :: dd :: ms :: mdn :: extras) fs).fs p =
        readFile fs p := by
  rw [installBindist_ok a0 sd dd ms mdn extras fs cm hpre hms hms_nd hdm_nd hdm_np hms_ne
    hsrcR hsrc_nd hdst_nd hdst_np hsm hsd2]
  refine ⟨rfl, ?_⟩
  intro p hp1 hp2
  have hnm : p ∉ (((joinPath dd mdn, cm) ::
      extras.map fun f => (joinPath dd f, (readFile fs (joinPath sd f)).getD "")).map Prod.fst) := by
    intro hmem
    rcases List.mem_cons.mp hmem with heq | hmem'
    · exact hp1 heq
    · rw [List.map_map] at hmem'
      rcases List.mem_map.mp hmem' with ⟨g, hg, hfst⟩
      exact hp2 g hg hfst.symm
  show readFile (writeAll (addDirs fs (pathPrefixes dd)) _) p = _
  rw [readFile_writeAll_not_mem _ _ _ hnm, readFile_addDirs]

/-- C5, witness for the amended theorem: `dest_dir` `"d"` pre-exists with an
unrelated file `d/other`, which the successful run leaves unchanged. -/
theorem claim_C5_witness :
    (installBindist ["p", "s", "d", "m", "n", "f"]
      (FS.mk [("m", "M"), ("s/f", "F"), ("d/other", "KEEP")] ["d"])).err = none ∧
    ∀ p, p ≠ joinPath "d" "n" → (∀ f ∈ ["f"], p ≠ joinPath "d" f) →
      readFile (installBindist ["p", "s", "d", "m", "n", "f"]
          (FS.mk [("m", "M"), ("s/f", "F"), ("d/other", "KEEP")] ["d"])).fs p =
        readFile (FS.mk [("m", "M"), ("s/f", "F"), ("d/other", "KEEP")] ["d"]) p :=
  claim_C5 "p" "s" "d" "m" "n" ["f"]
    (FS.mk [("m", "M"), ("s/f", "F"), ("d/other", "KEEP")] ["d"]) "M"
    (by decide) (by decide) (by decide) (by decide) (by decide) (by decide) (by decide)
    (by decide) (by decide) (by decide) (by decide) (by decide) (by decide)

/-- C7 (confirmed): with exactly four positional arguments the extra-file list
is empty, yet the directory-creation step and the main copy still run: when
both succeed the whole run exits 0, `dest_dir/main_dest_name` holds the
content of `main_src_path`, and the full directory chain of `dest_dir`
exists. -/
theorem claim_C7 (a0 sd dd ms mdn : String) (fs : FS) (cm : String)
    (hpre : ∀ q ∈ pathPrefixes dd, readFile fs q = none)
    (hms : readFile fs ms = some cm)
    (hms_nd : ¬ isDir fs ms)
    (hdm_nd : ¬ isDir fs (joinPath dd mdn))
    (hdm_np : joinPath dd mdn ∉ pathPrefixes dd)
    (hms_ne : ms ≠ joinPath dd mdn) :
    (installBindist [a0, sd, dd, ms, mdn] fs).err = none ∧
    readFile (installBindist [a0, sd, dd, ms, mdn] fs).fs (joinPath dd mdn) =
      readFile fs ms ∧
    ∀ q ∈ pathPrefixes dd, isDir (installBindist [a0, sd, dd, ms, mdn] fs).fs q := by
  rw [installBindist_ok a0 sd dd ms mdn [] fs cm hpre hms hms_nd hdm_nd hdm_np hms_ne
    (by simp) (by simp) (by simp) (by simp) (by simp) (by simp)]
  refine ⟨rfl, ?_, ?_⟩
  · rw [hms]
    show readFile (writeAll (addDirs fs (pathPrefixes dd)) [(joinPath dd mdn, cm)]) _ = _
    rw [writeAll, writeAll, readFile_writeFile, if_pos rfl]
  · intro q hq
    show isDir (writeAll (addDirs fs (pathPrefixes dd)) _) q
    rw [isDir_writeAll, isDir_addDirs]
    exact Or.inl hq

/-- C7, witness. -/
theorem claim_C7_witness :
    (installBindist ["p", "s", "a/b", "m", "n"] (FS.mk [("m", "M")] [])).err = none ∧
    readFile (installBindist ["p", "s", "a/b", "m", "n"]
        (FS.mk [("m", "M")] [])).fs (joinPath "a/b" "n") =
      readFile (FS.mk [("m", "M")] []) "m" ∧
    ∀ q ∈ pathPrefixes "a/b",
      isDir (installBindist ["p", "s", "a/b", "m", "n"] (FS.mk [("m", "M")] [])).fs q :=
  claim_C7 "p" "s" "a/b" "m" "n" (FS.mk [("m", "M")] []) "M"
    (by decide) (by decide) (by decide) (by decide) (by decide) (by decide)

/-- C2 (confirmed): the run performs `os.makedirs(dest_dir, exist_ok=True)`
before any copy is attempted — when it succeeds the whole directory chain of
`dest_dir` exists and the run continues with the copy phase on the updated
filesystem — and when `dest_dir` and its chain already exist as directories
the step changes nothing and does not fail. -/
theorem claim_C2 (argv : List String) (fs : FS) (dd : String) :
    (∀ fs1, sysArgv argv 2 = .ok dd → makedirs fs dd = (fs1, none) →
      installBindist argv fs = copyPhase argv dd fs1 ∧
      ∀ q ∈ pathPrefixes dd, isDir fs1 q) ∧
    ((∀ q ∈ pathPrefixes dd, isDir fs q ∧ readFile fs q = none) →
      makedirs fs dd = (fs, none)) := by
  constructor
  · intro fs1 h2 hmk
    exact ⟨installBindist_step argv fs fs1 dd h2 hmk,
      fun q hq => ((makedirsFrom_none_inv (pathPrefixes dd) fs fs1 hmk).2.2 q hq).1⟩
  · intro h
    exact makedirsFrom_noop (pathPrefixes dd) fs h

/-- C2, witness. -/
theorem claim_C2_witness :
    (installBindist ["p", "s", "a/b", "m", "n"] (FS.mk [("m", "M")] ["a", "a/b"]) =
      copyPhase ["p", "s", "a/b", "m", "n"] "a/b" (FS.mk [("m", "M")] ["a", "a/b"]) ∧
      ∀ q ∈ pathPrefixes "a/b", isDir (FS.mk [("m", "M")] ["a", "a/b"]) q) ∧
    makedirs (FS.mk [("m", "M")] ["a", "a/b"]) "a/b" = (FS.mk [("m", "M")] ["a", "a/b"], none) :=
  ⟨(claim_C2 ["p", "s", "a/b", "m", "n"] (FS.mk [("m", "M")] ["a", "a/b"]) "a/b").1
      (FS.mk [("m", "M")] ["a", "a/b"]) (by decide) (by decide),
    (claim_C2 ["p", "s", "a/b", "m", "n"] (FS.mk [("m", "M")] ["a", "a/b"]) "a/b").2 (by decide)⟩

/-- C4 (confirmed): an uncaught filesystem error makes the process exit with
status 1; when the copy of an extra file fails after a prefix of the list has
been copied, the run stops at once with exactly the filesystem produced by the
completed copies (nothing rolled back, the rest of the list never attempted);
a missing extra-file source aborts the run with `FileNotFoundError` naming the
offending path; and every filesystem error names a path. -/
theorem claim_C4 :
    (∀ (argv : List String) (fs : FS) (e : PyError),
      (installBindist argv fs).err = some e → exitStatus (installBindist argv fs) = 1) ∧
    (∀ (argv : List String) (dd sd : String) (l1 l2 : List String) (f : String)
      (s s' : FS) (e : PyError),
      sysArgv argv 1 = .ok sd →
      copyExtras argv dd l1 s = ⟨s', none⟩ →
      shutilCopy s' (joinPath sd f) (joinPath dd f) = .error e →
      copyExtras argv dd (l1 ++ f :: l2) s = ⟨s', some e⟩) ∧
    (∀ (argv : List String) (dd sd f : String) (rest : List String) (s : FS),
      sysArgv argv 1 = .ok sd →
      ¬ pathExists s (joinPath sd f) →
      copyExtras argv dd (f :: rest) s = ⟨s, some (.fileNotFound (joinPath sd f))⟩) ∧
    (∀ e : PyError, e ≠ .indexError → (PyError.path e).isSome = true) := by
  refine ⟨?_, ?_, ?_, ?_⟩
  · intro argv fs e h
    unfold exitStatus
    rw [h]
  · intro argv dd sd l1 l2 f s s' e hargv hpref hcopy
    rw [copyExtras_append_ok argv dd l1 (f :: l2) s s' hpref]
    exact copyExtras_cons_errC argv dd sd f l2 s' e hargv hcopy
  · intro argv dd sd f rest s hargv hex
    exact copyExtras_cons_errC argv dd sd f rest s _ hargv (shutilCopy_notFound s _ _ hex)
  · intro e he
    cases e with
    | indexError => exact absurd rfl he
    | fileExists p => rfl
    | fileNotFound p => rfl
    | isADirectory p => rfl
    | sameFile s d => rfl

/-- C4, witness: a run on an empty argument vector exits 1; a failing second
extra copy keeps the first copy's effect and reports the missing path; a
missing extra source gives `FileNotFoundError`; errors carry paths. -/
theorem claim_C4_witness :
    exitStatus (installBindist [] (FS.mk [] [])) = 1 ∧
    copyExtras ["p", "s", "d"] "d" (["f"] ++ "g" :: []) (FS.mk [("s/f", "F")] []) =
      ⟨FS.mk [("s/f", "F"), ("d/f", "F")] [], some (.fileNotFound "s/g")⟩ ∧
    copyExtras ["p", "s", "d"] "d" ("g" :: []) (FS.mk [] []) =
      ⟨FS.mk [] [], some (.fileNotFound (joinPath "s" "g"))⟩ ∧
    (PyError.path (.fileNotFound "s/g")).isSome = true :=
  ⟨claim_C4.1 [] (FS.mk [] []) .indexError (by decide),
    claim_C4.2.1 ["p", "s", "d"] "d" "s" ["f"] [] "g"
      (FS.mk [("s/f", "F")] []) (FS.mk [("s/f", "F"), ("d/f", "F")] [])
      (.fileNotFound "s/g") (by decide) (by decide) (by decide),
    claim_C4.2.2.1 ["p", "s", "d"] "d" "s" "g" [] (FS.mk [] []) (by decide) (by decide),
    claim_C4.2.2.2 (.fileNotFound "s/g") (by decide)⟩

/-- C10 (confirmed): when `main_src_path` and `dest_dir/main_dest_name` are
the same (existing, non-directory) path, the main copy raises
`SameFileError`, the run stops there with exit status 1 and nothing else is
attempted; likewise an extra file whose source `source_dir/f` and destination
`dest_dir/f` are the same existing path makes the loop abort with
`SameFileError`.  (Aliasing through symbolic or hard links is outside the
string-path model.) -/
theorem claim_C10 :
    (∀ (argv : List String) (fs fs1 : FS) (dd ms mdn : String) (c : String),
      sysArgv argv 2 = .ok dd → sysArgv argv 3 = .ok ms → sysArgv argv 4 = .ok mdn →
      makedirs fs dd = (fs1, none) →
      ms = joinPath dd mdn →
      ¬ isDir fs1 ms →
      readFile fs1 ms = some c →
      installBindist argv fs = ⟨fs1, some (.sameFile ms ms)⟩ ∧
        exitStatus (installBindist argv fs) = 1) ∧
    (∀ (argv : List String) (dd sd f : String) (rest : List String) (s : FS) (c : String),
      sysArgv argv 1 = .ok sd →
      joinPath sd f = joinPath dd f →
      ¬ isDir s (joinPath dd f) →
      readFile s (joinPath sd f) = some c →
      copyExtras argv dd (f :: rest) s =
        ⟨s, some (.sameFile (joinPath sd f) (joinPath dd f))⟩) := by
  constructor
  · intro argv fs fs1 dd ms mdn c h2 h3 h4 hmk heq hnd hex
    have hc : shutilCopy fs1 ms (joinPath dd mdn) = .error (.sameFile ms (joinPath dd mdn)) :=
      shutilCopy_sameFile fs1 ms (joinPath dd mdn) (heq ▸ hnd) heq
        (Or.inl (by rw [hex]; rfl))
    have hrun : installBindist argv fs = ⟨fs1, some (.sameFile ms (joinPath dd mdn))⟩ := by
      rw [installBindist_step argv fs fs1 dd h2 hmk,
        copyPhase_errC argv dd ms mdn fs1 _ h3 h4 hc]
    rw [← heq] at hrun
    refine ⟨hrun, ?_⟩
    unfold exitStatus
    rw [hrun]
  · intro argv dd sd f rest s c hargv heq hnd hex
    exact copyExtras_cons_errC argv dd sd f rest s _ hargv
      (shutilCopy_sameFile s (joinPath sd f) (joinPath dd f) hnd heq
        (Or.inl (by rw [hex]; rfl)))

/-- C10, witness. -/
theorem claim_C10_witness :
    (installBindist ["p", "s", "d", "d/n", "n"] (FS.mk [("d/n", "OLD")] ["d"]) =
      ⟨FS.mk [("d/n", "OLD")] ["d"], some (.sameFile "d/n" "d/n")⟩ ∧
      exitStatus (installBindist ["p", "s", "d", "d/n", "n"]
        (FS.mk [("d/n", "OLD")] ["d"])) = 1) ∧
    copyExtras ["p", "d", "d"] "d" ("f" :: []) (FS.mk [("d/f", "F")] ["d"]) =
      ⟨FS.mk [("d/f", "F")] ["d"], some (.sameFile (joinPath "d" "f") (joinPath "d" "f"))⟩ :=
  ⟨claim_C10.1 ["p", "s", "d", "d/n", "n"] (FS.mk [("d/n", "OLD")] ["d"])
      (FS.mk [("d/n", "OLD")] ["d"]) "d" "d/n" "n" "OLD"
      (by decide) (by decide) (by decide) (by decide) (by decide) (by decide) (by decide),
    claim_C10.2 ["p", "d", "d"] "d" "d" "f" [] (FS.mk [("d/f", "F")] ["d"]) "F"
      (by decide) (by decide) (by decide) (by decide)⟩

/-- C8 (confirmed): with at most five argv entries (program name plus at most
four positional arguments, i.e. `extra_files` empty) the run never reads
`sys.argv[1]`: its outcome is identical for any value of the `source_dir`
argument, so in particular it succeeds even when `source_dir` does not
exist. -/
theorem claim_C8 (a0 sd sd' : String) (r : List String) (fs : FS)
    (hlen : (a0 :: sd :: r).length ≤ 5) :
    installBindist (a0 :: sd :: r) fs = installBindist (a0 :: sd' :: r) fs := by
  have hr3 : r.drop 3 = [] := by
    apply List.drop_eq_nil_of_le
    simp only [List.length_cons] at hlen
    omega
  cases h0 : r[0]? with
  | none =>
    have ha : sysArgv (a0 :: sd :: r) 2 = .error .indexError := by simp [sysArgv, h0]
    have hb : sysArgv (a0 :: sd' :: r) 2 = .error .indexError := by simp [sysArgv, h0]
    rw [installBindist_errA _ _ _ ha, installBindist_errA _ _ _ hb]
  | some dd =>
    have ha : sysArgv (a0 :: sd :: r) 2 = .ok dd := by simp [sysArgv, h0]
    have hb : sysArgv (a0 :: sd' :: r) 2 = .ok dd := by simp [sysArgv, h0]
    rcases hmk : makedirs fs dd with ⟨fs1, oe⟩
    cases oe with
    | some e =>
      rw [installBindist_errM _ _ _ _ _ ha hmk, installBindist_errM _ _ _ _ _ hb hmk]
    | none =>
      rw [installBindist_step _ _ _ _ ha hmk, installBindist_step _ _ _ _ hb hmk]
      cases h1 : r[1]? with
      | none =>
        have ha3 : sysArgv (a0 :: sd :: r) 3 = .error .indexError := by simp [sysArgv, h1]
        have hb3 : sysArgv (a0 :: sd' :: r) 3 = .error .indexError := by simp [sysArgv, h1]
        rw [copyPhase_err3 _ _ _ _ ha3, copyPhase_err3 _ _ _ _ hb3]
      | some ms =>
        have ha3 : sysArgv (a0 :: sd :: r) 3 = .ok ms := by simp [sysArgv, h1]
        have hb3 : sysArgv (a0 :: sd' :: r) 3 = .ok ms := by simp [sysArgv, h1]
        cases h2 : r[2]? with
        | none =>
          have ha4 : sysArgv (a0 :: sd :: r) 4 = .error .indexError := by simp [sysArgv, h2]
          have hb4 : sysArgv (a0 :: sd' :: r) 4 = .error .indexError := by simp [sysArgv, h2]
          rw [copyPhase_err4 _ _ _ _ _ ha3 ha4, copyPhase_err4 _ _ _ _ _ hb3 hb4]
        | some mdn =>
          have ha4 : sysArgv (a0 :: sd :: r) 4 = .ok mdn := by simp [sysArgv, h2]
          have hb4 : sysArgv (a0 :: sd' :: r) 4 = .ok mdn := by simp [sysArgv, h2]
          cases hc : shutilCopy fs1 ms (joinPath dd mdn) with
          | error e =>
            rw [copyPhase_errC _ _ _ _ _ _ ha3 ha4 hc,
              copyPhase_errC _ _ _ _ _ _ hb3 hb4 hc]
          | ok fs2 =>
            rw [copyPhase_okC _ _ _ _ _ _ ha3 ha4 hc,
              copyPhase_okC _ _ _ _ _ _ hb3 hb4 hc]
            have hda : (a0 :: sd :: r).drop 5 = [] := hr3
            have hdb : (a0 :: sd' :: r).drop 5 = [] := hr3
            rw [hda, hdb]
            rfl

/-- C8, witness: the same four-argument run with `source_dir` `"s"` and with a
`source_dir` that exists nowhere on the filesystem. -/
theorem claim_C8_witness :
    installBindist ["p", "s", "d", "m", "n"] (FS.mk [("m", "M")] []) =
      installBindist ["p", "no/such/dir", "d", "m", "n"] (FS.mk [("m", "M")] []) :=
  claim_C8 "p" "s" "no/such/dir" ["d", "m", "n"] (FS.mk [("m", "M")] []) (by decide)

/-- C9 (confirmed): with fewer than four positional arguments the run exits
non-zero (an `IndexError`) and copies nothing — every file keeps its content —
but when the first two arguments are present and `dest_dir` is creatable, the
`os.makedirs` side effect has already happened when the `IndexError` hits:
the whole directory chain of `dest_dir` exists in the final state. -/
theorem claim_C9 (argv : List String) (fs : FS) (hlen : argv.length < 5) :
    (installBindist argv fs).err ≠ none ∧
    (∀ p, readFile (installBindist argv fs).fs p = readFile fs p) ∧
    (∀ dd fs1, sysArgv argv 2 = .ok dd → makedirs fs dd = (fs1, none) →
      installBindist argv fs = ⟨fs1, some .indexError⟩ ∧
      ∀ q ∈ pathPrefixes dd, isDir fs1 q) := by
  cases h2 : sysArgv argv 2 with
  | error e =>
    rw [installBindist_errA argv fs e h2]
    refine ⟨by simp, fun p => rfl, ?_⟩
    intro dd fs1 h2' hmk
    simp at h2'
  | ok dd =>
    rcases hmkp : makedirs fs dd with ⟨fs1, oe⟩
    have hfiles : ∀ p, readFile fs1 p = readFile fs p := by
      intro p
      have hh := makedirsFrom_files (pathPrefixes dd) fs p
      rw [show makedirsFrom fs (pathPrefixes dd) = makedirs fs dd from rfl, hmkp] at hh
      exact hh
    cases oe with
    | some e =>
      rw [installBindist_errM argv fs fs1 dd e h2 hmkp]
      refine ⟨by simp, fun p => hfiles p, ?_⟩
      intro dd' fs1' h2' hmk'
      injection h2' with hdd
      subst hdd
      rw [hmkp] at hmk'
      simp at hmk'
    | none =>
      have hres : installBindist argv fs = ⟨fs1, some .indexError⟩ := by
        rw [installBindist_step argv fs fs1 dd h2 hmkp]
        by_cases h3l : argv.length ≤ 3
        · have h3 : argv[3]? = none := List.getElem?_eq_none h3l
          exact copyPhase_err3 argv dd fs1 _ (by simp [sysArgv, h3])
        · have hlt : 3 < argv.length := by omega
          obtain ⟨ms, h3⟩ : ∃ x, argv[3]? = some x := by
            cases hx : argv[3]? with
            | none =>
              have hsome := List.getElem?_eq_getElem hlt
              rw [hx] at hsome
              cases hsome
            | some x => exact ⟨x, rfl⟩
          have h4 : argv[4]? = none := List.getElem?_eq_none (by omega)
          exact copyPhase_err4 argv dd ms fs1 _ (by simp [sysArgv, h3]) (by simp [sysArgv, h4])
      rw [hres]
      refine ⟨by simp, fun p => hfiles p, ?_⟩
      intro dd' fs1' h2' hmk'
      injection h2' with hdd
      subst hdd
      rw [hmkp] at hmk'
      injection hmk' with hf ho
      subst hf
      exact ⟨rfl, fun q hq =>
        ((makedirsFrom_none_inv (pathPrefixes dd) fs fs1 hmkp).2.2 q hq).1⟩

/-- C9, witness: argv `["p", "s", "a/b"]` (two positional arguments) exits
with `IndexError`, copies nothing, and has still created the chain `a`,
`a/b`. -/
theorem claim_C9_witness :
    (installBindist ["p", "s", "a/b"] (FS.mk [("x", "X")] [])).err ≠ none ∧
    (∀ p, readFile (installBindist ["p", "s", "a/b"] (FS.mk [("x", "X")] [])).fs p =
      readFile (FS.mk [("x", "X")] []) p) ∧
    (installBindist ["p", "s", "a/b"] (FS.mk [("x", "X")] []) =
      ⟨FS.mk [("x", "X")] ["a/b", "a"], some .indexError⟩ ∧
      ∀ q ∈ pathPrefixes "a/b", isDir (FS.mk [("x", "X")] ["a/b", "a"]) q) :=
  ⟨(claim_C9 ["p", "s", "a/b"] (FS.mk [("x", "X")] []) (by decide)).1,
    (claim_C9 ["p", "s", "a/b"] (FS.mk [("x", "X")] []) (by decide)).2.1,
    (claim_C9 ["p", "s", "a/b"] (FS.mk [("x", "X")] []) (by decide)).2.2
      "a/b" (FS.mk [("x", "X")] ["a/b", "a"]) (by decide) (by decide)⟩

/-- C6 (confirmed): if a run succeeds and the sources are unchanged afterwards
(no source path was clobbered by the run itself — the claim's "unchanged
sources"), then running the program a second time with the same arguments
succeeds as well and leaves every file exactly as the first run left it: the
final `dest_dir` contents of two runs equal those of one run. -/
theorem claim_C6 (argv : List String) (fs0 s1 : FS)
    (h1 : installBindist argv fs0 = ⟨s1, none⟩)
    (hstab : ∀ p ∈ sourcePaths argv, readFile s1 p = readFile fs0 p) :
    (installBindist argv s1).err = none ∧
    ∀ p, readFile (installBindist argv s1).fs p = readFile s1 p := by
  cases h2 : sysArgv argv 2 with
  | error e =>
    rw [installBindist_errA argv fs0 e h2] at h1
    simp at h1
  | ok dd =>
    rcases hmkp : makedirs fs0 dd with ⟨fs1, oe⟩
    cases oe with
    | some e =>
      rw [installBindist_errM argv fs0 fs1 dd e h2 hmkp] at h1
      simp at h1
    | none =>
      rw [installBindist_step argv fs0 fs1 dd h2 hmkp] at h1
      cases h3 : sysArgv argv 3 with
      | error e =>
        rw [copyPhase_err3 argv dd fs1 e h3] at h1
        simp at h1
      | ok ms =>
        cases h4 : sysArgv argv 4 with
        | error e =>
          rw [copyPhase_err4 argv dd ms fs1 e h3 h4] at h1
          simp at h1
        | ok mdn =>
          cases hcp : shutilCopy fs1 ms (joinPath dd mdn) with
          | error e =>
            rw [copyPhase_errC argv dd ms mdn fs1 e h3 h4 hcp] at h1
            simp at h1
          | ok fs2 =>
            rw [copyPhase_okC argv dd ms mdn fs1 fs2 h3 h4 hcp] at h1
            obtain ⟨hmkF, hmkD, hmkP⟩ :=
              makedirsFrom_none_inv (pathPrefixes dd) fs0 fs1 hmkp
            obtain ⟨dstM, cmv, hdstM, hneM, hndsM, hrcM, hnddM, hfs2⟩ :=
              shutilCopy_ok_inv hcp
            obtain ⟨hdirsE, hfilesE⟩ :=
              copyExtras_none_inv argv dd (argv.drop 5) fs2 s1 h1
            have hdirs21 : fs2.dirs = fs1.dirs := by rw [hfs2, dirs_writeFile]
            have hdirsS1 : s1.dirs = fs1.dirs := by rw [hdirsE, hdirs21]
            have hpfx : ∀ q ∈ pathPrefixes dd, isDir s1 q ∧ readFile s1 q = none := by
              intro q hq
              obtain ⟨hqd, hqn⟩ := hmkP q hq
              have hqd2 : isDir fs2 q := by
                unfold isDir at hqd ⊢
                rw [hdirs21]
                exact hqd
              have hq1 : isDir s1 q := by
                unfold isDir at hqd ⊢
                rw [hdirsS1]
                exact hqd
              refine ⟨hq1, ?_⟩
              rw [hfilesE q hqd2, hfs2,
                readFile_writeFile_ne _ _ (fun hh => hnddM (by rw [hh]; exact hqd)), hmkF q]
              exact hqn
            have hmk2 : makedirs s1 dd = (s1, none) :=
              makedirsFrom_noop (pathPrefixes dd) s1 hpfx
            have hinv0 : SimInv fs0 s1 fs1 s1 :=
              ⟨hdirsS1.symm, fun p => Or.inr ⟨hmkF p, rfl⟩⟩
            have hlt3 : 3 < argv.length := by
              rcases List.getElem?_eq_some.mp ((sysArgv_ok_iff argv 3 ms).mp h3) with ⟨hlt, _⟩
              exact hlt
            have hget3 : argv[3] = ms := by
              rcases List.getElem?_eq_some.mp ((sysArgv_ok_iff argv 3 ms).mp h3) with ⟨hlt, hg⟩
              exact hg
            have hdrop3 : argv.drop 3 = ms :: argv.drop 4 := by
              rw [List.drop_eq_getElem_cons hlt3, hget3]
            have hmsSrc : ms ∈ sourcePaths argv := by
              rw [sourcePaths, hdrop3]
              simp
            have hsrcM : readFile s1 ms = readFile fs1 ms := by
              rw [hmkF ms]
              exact hstab ms hmsSrc
            obtain ⟨t2, hct2, hinv2⟩ := copy_sim hinv0 hsrcM hcp
            obtain ⟨a1, ha1⟩ : ∃ x, argv[1]? = some x := by
              cases hx : argv[1]? with
              | none =>
                have hsome := List.getElem?_eq_getElem (l := argv) (n := 1) (by omega)
                rw [hx] at hsome
                cases hsome
              | some x => exact ⟨x, rfl⟩
            have hargv1 : sysArgv argv 1 = .ok a1 := (sysArgv_ok_iff argv 1 a1).mpr ha1
            have hgetD : argv.getD 1 "" = a1 := by
              simp [List.getD, ha1]
            have hstabE : ∀ f ∈ argv.drop 5,
                readFile s1 (joinPath a1 f) = readFile fs0 (joinPath a1 f) := by
              intro f hf
              apply hstab
              rw [sourcePaths]
              apply List.mem_append_right
              exact List.mem_map.mpr ⟨f, hf, by rw [hgetD]⟩
            obtain ⟨w2, hw2, hinvw⟩ :=
              copyExtras_sim argv dd a1 fs0 s1 hargv1 (argv.drop 5) fs2 t2 s1 h1 hinv2 hstabE
            have hrun2 : installBindist argv s1 = ⟨w2, none⟩ := by
              rw [installBindist_step argv s1 s1 dd h2 hmk2,
                copyPhase_okC argv dd ms mdn s1 t2 h3 h4 hct2, hw2]
            rw [hrun2]
            refine ⟨rfl, ?_⟩
            intro p
            rcases hinvw.2 p with heq | ⟨hu, ht⟩
            · exact heq
            · exact ht

/-- C6, witness: a concrete successful run, its sources untouched, re-run on
its own output. -/
theorem claim_C6_witness :
    (installBindist ["p", "s", "d", "m", "n", "f"]
      (FS.mk [("m", "M"), ("s/f", "F"), ("d/n", "M"), ("d/f", "F")] ["d"])).err = none ∧
    ∀ p, readFile (installBindist ["p", "s", "d", "m", "n", "f"]
        (FS.mk [("m", "M"), ("s/f", "F"), ("d/n", "M"), ("d/f", "F")] ["d"])).fs p =
      readFile (FS.mk [("m", "M"), ("s/f", "F"), ("d/n", "M"), ("d/f", "F")] ["d"]) p :=
  claim_C6 ["p", "s", "d", "m", "n", "f"]
    (FS.mk [("m", "M"), ("s/f", "F")] [])
    (FS.mk [("m", "M"), ("s/f", "F"), ("d/n", "M"), ("d/f", "F")] ["d"])
    (by decide) (by decide)

end InstallBindist
